import Mathlib

/-!
A shallow embedding of the markdown transformer in `src/lib/src/markdown.rs`
(tree builder `parse_with_loader` and tree lowering `generate_with_saver` /
`element_to_ast_node`), together with theorems checking the specification's
claims against it.

The builder consumes the flat sequence of structural events that the external
tokenizer (pulldown-cmark) produces; the tokenizer itself is out of scope, so
the embedding takes the event list directly.  Rust panics (`panic!`, index
underflow, `unwrap` on `None`) are modelled as the distinguished outcome
`ShivaError.Panicked`, kept separate from the `Result`-channel errors.
-/

namespace Shiva

/-- Raw resource bytes (Rust `bytes::Bytes`), modelled as a list of byte values. -/
abbrev Bytes := List Nat

/-- `ImageDimension` from the core data model; carries optional width/height.
Only its default value is used by the code under `src/`. -/
structure ImageDimension where
  width : Option String := none
  height : Option String := none
  deriving DecidableEq, Repr

/-- `ImageData`: the payload of an `Element::Image`.  The constructor call in
`parse_with_loader` is `ImageData::new(bytes, title, alt, image_type, align,
dimension)` with `alt = title`, `image_type = dest_url` and `align = ""`. -/
structure ImageData where
  bytes : Bytes
  title : String
  alt : String
  image_type : String
  align : String
  size : ImageDimension
  deriving DecidableEq, Repr

/-- `ImageData::set_image_alt`. -/
def ImageData.set_image_alt (d : ImageData) (t : String) : ImageData :=
  { d with alt := t }

mutual
/-- The `Element` sum type of the core data model (spec section 3): a closed
set of variants, each owning its children. -/
inductive Element where
  | Text (text : String) (size : Nat)
  | Header (level : Nat) (text : String)
  | Paragraph (elements : List Element)
  | List (elements : List ListItem) (numbered : Bool)
  | Hyperlink (title : String) (url : String) (alt : String) (size : Nat)
  | Image (data : ImageData)
  | Table (headers : List TableHeader) (rows : List TableRow)

/-- `ListItem { element: Element }`. -/
inductive ListItem where
  | mk (element : Element)

/-- `TableHeader { element: Element, width }` (width is the constant 30.0 in
the builder; modelled as a natural number). -/
inductive TableHeader where
  | mk (element : Element) (width : Nat)

/-- `TableRow { cells: Vec<TableCell> }`. -/
inductive TableRow where
  | mk (cells : List TableCell)

/-- `TableCell { element: Element }`. -/
inductive TableCell where
  | mk (element : Element)
end

/-- Projection for `ListItem.element`. -/
def ListItem.element : ListItem → Element
  | .mk e => e

/-- Projection for `TableRow.cells`. -/
def TableRow.cells : TableRow → List TableCell
  | .mk cs => cs

/-- Projection for `TableCell.element`. -/
def TableCell.element : TableCell → Element
  | .mk e => e

/-- Projection for `TableHeader.element`. -/
def TableHeader.element : TableHeader → Element
  | .mk e _ => e

/-- The `Document`: body elements plus page header/footer sequences.  The page
geometry fields are opaque pass-through values never touched by the markdown
transformer, so they are omitted from the embedding. -/
structure Document where
  elements : List Element
  page_header : List Element := []
  page_footer : List Element := []

/-- `Document::new(elements)`: empty page header/footer. -/
def Document.new (elements : List Element) : Document :=
  { elements := elements }

/-- pulldown-cmark heading levels. -/
inductive HeadingLevel where
  | H1 | H2 | H3 | H4 | H5 | H6
  deriving DecidableEq, Repr

/-- The `match level` in the `Tag::Heading` arm of `parse_with_loader`. -/
def HeadingLevel.toNat : HeadingLevel → Nat
  | .H1 => 1
  | .H2 => 2
  | .H3 => 3
  | .H4 => 4
  | .H5 => 5
  | .H6 => 6

/-- Start tags, restricted to the fields the builder reads.  `Other` stands
for every tag the builder's `_rest` arm ignores. -/
inductive Tag where
  | Paragraph
  | Heading (level : HeadingLevel)
  | List (numbered : Option Nat)
  | Item
  | Table
  | TableHead
  | Image (dest_url : String) (title : String)
  | Link (dest_url : String) (title : String)
  | Other
  deriving DecidableEq, Repr

/-- End tags; `Other` stands for every end tag the builder ignores. -/
inductive TagEnd where
  | Paragraph
  | Heading (level : HeadingLevel)
  | Link
  | Image
  | List
  | TableHead
  | Table
  | Other
  deriving DecidableEq, Repr

/-- Structural events: start-tag, text, end-tag (spec glossary), plus the
event kinds the builder's final `_ => {}` arm ignores. -/
inductive Event where
  | Start (tag : Tag)
  | Text (text : String)
  | End (tag : TagEnd)
  | Other
  deriving DecidableEq, Repr

/-- The error taxonomy of spec section 7 plus `Panicked`, which models a Rust
panic (`panic!` in the nesting descent, slice-index underflow, `unwrap` on
`None`) — an unwind, not a value of the `Result` error channel.
`StructuralInvariantViolation` is the tagged failure the spec names for a
failed nesting descent. -/
inductive ShivaError where
  | InvalidEncoding
  | ImageLoadFailed
  | ImageSaveFailed
  | StructuralInvariantViolation
  | Panicked
  deriving DecidableEq, Repr

/-- Builder state carried across the single pass over the event stream
(spec section 4.1): sealed body elements, the list-nesting depth counter
(an `i32` in the source, hence `Int`), the single open top-level scope, and
the table side-channel. -/
structure BuilderState where
  elements : List Element
  list_depth : Int
  current_element : Option Element
  table_element : Option (Bool × Element)

/-- The descent-and-insert loop of `process_element_creation`
(markdown.rs lines 36–64): descend `n` times through the last item of the
current level, requiring a nested `List` at each step, then at the target
level pop a trailing placeholder `Text` item when the incoming element is a
`Hyperlink` or `Header`, and append the new element wrapped in a `ListItem`.
`none` models the panics: the `panic!` when the last item is not a `List`,
and the index underflow when the level is empty. -/
def descend_insert : Nat → List ListItem → Element → Option (List ListItem)
  | 0, items, el =>
      let items' :=
        match el with
        | .Hyperlink _ _ _ _ | .Header _ _ =>
            match items.getLast? with
            | some (.mk (.Text _ _)) => items.dropLast
            | _ => items
        | _ => items
      some (items' ++ [ListItem.mk el])
  | n + 1, items, el =>
      match items.getLast? with
      | some (.mk (Element.List inner numbered)) =>
          match descend_insert n inner el with
          | some inner' => some (items.dropLast ++ [ListItem.mk (Element.List inner' numbered)])
          | none => none
      | _ => none

/-- `process_element_creation` (markdown.rs lines 28–72): if no top-level
scope is open the new element becomes the scope; if a `List` is open, insert
at depth `list_depth - 1` (the Rust loop `for _ in 1..list_depth`); any other
open scope silently discards the new element.  `none` models a panic. -/
def process_element_creation (current : Option Element) (el : Element)
    (list_depth : Int) : Option (Option Element) :=
  match current with
  | some (Element.List elements numbered) =>
      match descend_insert (list_depth - 1).toNat elements el with
      | some elements' => some (some (Element.List elements' numbered))
      | none => none
  | some e => some (some e)
  | none => some (some el)

/-- The text-routing loop for an open `List` (markdown.rs lines 202–236):
descend `n` levels, then mutate the last item — append to a `Text`, overwrite
a `Hyperlink` title, overwrite a `Header` text, leave anything else alone.
`none` models the panics (`panic!` on a non-`List` step, index underflow,
and `last_mut().unwrap()` on an empty level). -/
def text_into_list : Nat → List ListItem → String → Option (List ListItem)
  | 0, items, text =>
      match items.getLast? with
      | none => none
      | some (.mk el) =>
          let el' :=
            match el with
            | Element.Text t sz => Element.Text (t ++ text) sz
            | Element.Hyperlink _ url alt sz => Element.Hyperlink text url alt sz
            | Element.Header lv _ => Element.Header lv text
            | other => other
          some (items.dropLast ++ [ListItem.mk el'])
  | n + 1, items, text =>
      match items.getLast? with
      | some (.mk (Element.List inner numbered)) =>
          match text_into_list n inner text with
          | some inner' => some (items.dropLast ++ [ListItem.mk (Element.List inner' numbered)])
          | none => none
      | _ => none

/-- The table branch of the `Event::Text` handler (markdown.rs lines
249–298): while `in_header`, each text becomes a new header cell; otherwise a
text becomes a new row when the last row has exactly `headers.len()` cells
(or there is no row yet) and is appended to the last row otherwise. -/
def table_text_step (text : String) : Bool × Element → Bool × Element
  | (is_header, Element.Table headers rows) =>
      if is_header then
        (is_header, Element.Table (headers ++ [TableHeader.mk (Element.Text text 14) 30]) rows)
      else
        match rows.getLast? with
        | some (.mk cells) =>
            if cells.length = headers.length then
              (is_header, Element.Table headers
                (rows ++ [TableRow.mk [TableCell.mk (Element.Text text 14)]]))
            else
              (is_header, Element.Table headers
                (rows.dropLast ++ [TableRow.mk (cells ++ [TableCell.mk (Element.Text text 14)])]))
        | none =>
            (is_header, Element.Table headers [TableRow.mk [TableCell.mk (Element.Text text 14)]])
  | other => other

/-- The `Event::Text` handler (markdown.rs lines 190–298): route the text
into the open top-level scope (with the in-list descent), then independently
into the table side-channel.  `none` models a panic raised by the descent.
The `Hyperlink` arm of the source is the self-assignment
`*alt = alt.to_string()`, which drops the event text. -/
def handle_text (text : String) (s : BuilderState) : Option BuilderState :=
  let current? : Option (Option Element) :=
    match s.current_element with
    | some (Element.Paragraph els) =>
        some (some (Element.Paragraph (els ++ [Element.Text text 14])))
    | some (Element.Header lv t) => some (some (Element.Header lv (t ++ text)))
    | some (Element.List items numbered) =>
        match text_into_list (s.list_depth - 1).toNat items text with
        | some items' => some (some (Element.List items' numbered))
        | none => none
    | some (Element.Image data) => some (some (Element.Image (data.set_image_alt text)))
    | some (Element.Hyperlink title url alt sz) =>
        some (some (Element.Hyperlink title url alt sz))
    | some other => some (some other)
    | none => some none
  match current? with
  | none => none
  | some cur =>
      some { s with
        current_element := cur,
        table_element := s.table_element.map (table_text_step text) }

/-- One step of the event loop of `parse_with_loader` (markdown.rs lines
91–337).  The image loader is injected; `none` from it models a failing
`image_loader(&dest_url)?`. -/
def step (loader : String → Option Bytes) (s : BuilderState) :
    Event → Except ShivaError BuilderState
  | .Start tag =>
    match tag with
    | .Paragraph =>
        match process_element_creation s.current_element (Element.Paragraph []) s.list_depth with
        | some cur => .ok { s with current_element := cur }
        | none => .error .Panicked
    | .Heading level =>
        match process_element_creation s.current_element
            (Element.Header level.toNat "") s.list_depth with
        | some cur => .ok { s with current_element := cur }
        | none => .error .Panicked
    | .List numbered =>
        match process_element_creation s.current_element
            (Element.List [] numbered.isSome) s.list_depth with
        | some cur => .ok { s with current_element := cur, list_depth := s.list_depth + 1 }
        | none => .error .Panicked
    | .Item =>
        match process_element_creation s.current_element (Element.Text "" 14) s.list_depth with
        | some cur => .ok { s with current_element := cur }
        | none => .error .Panicked
    | .Table => .ok { s with table_element := some (false, Element.Table [] []) }
    | .TableHead =>
        .ok { s with table_element := s.table_element.map (fun t => (true, t.2)) }
    | .Image dest_url title =>
        match loader dest_url with
        | none => .error .ImageLoadFailed
        | some bytes =>
            match process_element_creation none
                (Element.Image ⟨bytes, title, title, dest_url, "", {}⟩) s.list_depth with
            | some cur => .ok { s with current_element := cur }
            | none => .error .Panicked
    | .Link dest_url title =>
        match process_element_creation s.current_element
            (Element.Hyperlink title dest_url "alt" 14) s.list_depth with
        | some cur => .ok { s with current_element := cur }
        | none => .error .Panicked
    | .Other => .ok s
  | .Text text =>
      match handle_text text s with
      | some s' => .ok s'
      | none => .error .Panicked
  | .End tag =>
    match tag with
    | .Paragraph | .Heading _ | .Link | .Image =>
        match s.current_element with
        | some (Element.List _ _) => .ok s
        | some el => .ok { s with current_element := none, elements := s.elements ++ [el] }
        | none => .ok s
    | .List =>
        if s.list_depth - 1 = 0 then
          match s.current_element with
          | some el =>
              .ok { s with
                      list_depth := s.list_depth - 1,
                      current_element := none,
                      elements := s.elements ++ [el] }
          | none => .ok { s with list_depth := s.list_depth - 1 }
        else .ok { s with list_depth := s.list_depth - 1 }
    | .TableHead =>
        .ok { s with table_element := s.table_element.map (fun t => (false, t.2)) }
    | .Table =>
        match s.table_element with
        | some (_, t) => .ok { s with table_element := none, elements := s.elements ++ [t] }
        | none => .ok s
    | .Other => .ok s
  | .Other => .ok s

/-- Fold of `step` over the event list. -/
def run_events (loader : String → Option Bytes) :
    BuilderState → List Event → Except ShivaError BuilderState
  | s, [] => .ok s
  | s, e :: es =>
      match step loader s e with
      | .ok s' => run_events loader s' es
      | .error err => .error err

/-- The initial builder state of `parse_with_loader`. -/
def initial_state : BuilderState :=
  { elements := [], list_depth := 0, current_element := none, table_element := none }

/-- `parse_with_loader`, at the level of structural events: run the event
loop from the initial state and wrap the sealed body elements in a fresh
`Document` (an open `current_element` or `table_element` at end of stream is
dropped, as in the source). -/
def parse_with_loader (loader : String → Option Bytes) (events : List Event) :
    Except ShivaError Document :=
  match run_events loader initial_state events with
  | .ok s => .ok (Document.new s.elements)
  | .error e => .error e

/-- Output AST node values, restricted to the fields `element_to_ast_node`
sets and the downstream claims read.  `List` carries the ordered flag
(`ListType::Ordered` exactly when `numbered`) and the `start` field
(`1` when numbered, `0` otherwise); the remaining `NodeList` fields are
constants in the source. -/
inductive NodeValue where
  | Document
  | Text (text : String)
  | Heading (level : Nat)
  | Paragraph
  | List (ordered : Bool) (start : Nat)
  | Item
  | Image (url : String) (title : String)
  | Link (url : String) (title : String)
  | Table (num_columns : Nat) (num_rows : Nat)
  | TableRow (header : Bool)
  | TableCell
  deriving DecidableEq, Repr

/-- An output AST node: a value plus the children appended to it, in order
(the arena tree of the source, with only reachable structure kept). -/
inductive AstNode where
  | node (value : NodeValue) (children : List AstNode)

/-- Modelled from the spec: `ImageType::to_extension` belongs to the core
data model, which is not under `src/`; the spec only fixes that the generated
filename is `image<N>.<ext>` with the extension derived from the image type,
so the extension is modelled as a function of the stored image-type string. -/
def to_extension (image_type : String) : String :=
  "." ++ image_type

/-- The wrap rule for a lowered list-item child (markdown.rs lines 463–479):
a list node is appended directly, a non-paragraph node is wrapped in a fresh
paragraph node, a paragraph node is appended directly. -/
def wrap_list_child (child : AstNode) : AstNode :=
  match child with
  | .node (NodeValue.List _ _) _ => child
  | .node NodeValue.Paragraph _ => child
  | _ => .node .Paragraph [child]

mutual
/-- `element_to_ast_node` (markdown.rs lines 386–593): recursively lower one
`Element` to an output AST node.  The `RefCell<i32>` image counter is
threaded explicitly: the function takes the counter value and returns the
updated one.  The image saver is injected; `false` models a failing
`image_saver.function(...)?`, which aborts the lowering with
`ImageSaveFailed`. -/
def element_to_ast_node (saver : Bytes → String → Bool) :
    Element → Nat → Except ShivaError (AstNode × Nat)
  | Element.Text t _, n => .ok (.node (.Text t) [], n)
  | Element.Header level t, n => .ok (.node (.Heading level) [.node (.Text t) []], n)
  | Element.Paragraph els, n =>
      match elements_to_ast_nodes saver els n with
      | .ok (kids, n') => .ok (.node .Paragraph kids, n')
      | .error e => .error e
  | Element.List items numbered, n =>
      match list_items_to_nodes saver items n with
      | .ok (kids, n') =>
          .ok (.node (.List numbered (if numbered then 1 else 0)) kids, n')
      | .error e => .error e
  | Element.Image data, n =>
      let filename := "image" ++ toString (n + 1) ++ to_extension data.image_type
      if saver data.bytes filename then
        .ok (.node .Paragraph [.node (.Image filename data.title) []], n + 1)
      else .error .ImageSaveFailed
  | Element.Hyperlink title url alt _, n =>
      .ok (.node (.Link url alt) [.node (.Text title) []], n)
  | Element.Table headers rows, n =>
      match table_headers_to_cells saver headers n with
      | .ok (hcells, n1) =>
          match table_rows_to_nodes saver rows n1 with
          | .ok (rnodes, n2) =>
              .ok (.node (.Table headers.length (rows.length + 1))
                    (.node (.TableRow true) hcells :: rnodes), n2)
          | .error e => .error e
      | .error e => .error e

/-- Lower a list of elements in order, threading the image counter. -/
def elements_to_ast_nodes (saver : Bytes → String → Bool) :
    List Element → Nat → Except ShivaError (List AstNode × Nat)
  | [], n => .ok ([], n)
  | e :: es, n =>
      match element_to_ast_node saver e n with
      | .ok (nd, n1) =>
          match elements_to_ast_nodes saver es n1 with
          | .ok (nds, n2) => .ok (nd :: nds, n2)
          | .error err => .error err
      | .error err => .error err

/-- Lower the items of a `List` element: one `Item` node per `ListItem`, each
holding its lowered child under the wrap rule. -/
def list_items_to_nodes (saver : Bytes → String → Bool) :
    List ListItem → Nat → Except ShivaError (List AstNode × Nat)
  | [], n => .ok ([], n)
  | ListItem.mk e :: items, n =>
      match element_to_ast_node saver e n with
      | .ok (child, n1) =>
          match list_items_to_nodes saver items n1 with
          | .ok (nds, n2) => .ok (AstNode.node .Item [wrap_list_child child] :: nds, n2)
          | .error err => .error err
      | .error err => .error err

/-- Lower the header row of a table: one `TableCell` node per `TableHeader`,
each holding the lowered header element. -/
def table_headers_to_cells (saver : Bytes → String → Bool) :
    List TableHeader → Nat → Except ShivaError (List AstNode × Nat)
  | [], n => .ok ([], n)
  | TableHeader.mk e _ :: hs, n =>
      match element_to_ast_node saver e n with
      | .ok (cell, n1) =>
          match table_headers_to_cells saver hs n1 with
          | .ok (nds, n2) => .ok (AstNode.node .TableCell [cell] :: nds, n2)
          | .error err => .error err
      | .error err => .error err

/-- Lower the data rows of a table: one `TableRow` node per `TableRow`. -/
def table_rows_to_nodes (saver : Bytes → String → Bool) :
    List TableRow → Nat → Except ShivaError (List AstNode × Nat)
  | [], n => .ok ([], n)
  | TableRow.mk cells :: rows, n =>
      match table_cells_to_nodes saver cells n with
      | .ok (cnodes, n1) =>
          match table_rows_to_nodes saver rows n1 with
          | .ok (nds, n2) => .ok (AstNode.node (.TableRow false) cnodes :: nds, n2)
          | .error err => .error err
      | .error err => .error err

/-- Lower the cells of one table row. -/
def table_cells_to_nodes (saver : Bytes → String → Bool) :
    List TableCell → Nat → Except ShivaError (List AstNode × Nat)
  | [], n => .ok ([], n)
  | TableCell.mk e :: cs, n =>
      match element_to_ast_node saver e n with
      | .ok (cell, n1) =>
          match table_cells_to_nodes saver cs n1 with
          | .ok (nds, n2) => .ok (AstNode.node .TableCell [cell] :: nds, n2)
          | .error err => .error err
      | .error err => .error err
end

/-- `generate_with_saver` (markdown.rs lines 342–379), up to the external
commonmark serializer: lower page header, body and page footer in order under
a fresh image counter starting at `0`, collecting the nodes under a root
document node. -/
def generate_with_saver (saver : Bytes → String → Bool) (doc : Document) :
    Except ShivaError AstNode :=
  match elements_to_ast_nodes saver (doc.page_header ++ doc.elements ++ doc.page_footer) 0 with
  | .ok (kids, _) => .ok (.node .Document kids)
  | .error e => .error e

mutual
/-- The `ImageData` payloads contained in an element, in the order the
lowering pass visits them. -/
def images_of_element : Element → List ImageData
  | .Text _ _ => []
  | .Header _ _ => []
  | .Paragraph els => images_of_elements els
  | .List items _ => images_of_items items
  | .Hyperlink _ _ _ _ => []
  | .Image d => [d]
  | .Table hs rs => images_of_headers hs ++ images_of_rows rs

/-- Images of a list of elements, in order. -/
def images_of_elements : List Element → List ImageData
  | [] => []
  | e :: es => images_of_element e ++ images_of_elements es

/-- Images of the items of a `List` element, in order. -/
def images_of_items : List ListItem → List ImageData
  | [] => []
  | ListItem.mk e :: items => images_of_element e ++ images_of_items items

/-- Images of the headers of a `Table` element, in order. -/
def images_of_headers : List TableHeader → List ImageData
  | [] => []
  | TableHeader.mk e _ :: hs => images_of_element e ++ images_of_headers hs

/-- Images of the rows of a `Table` element, in order. -/
def images_of_rows : List TableRow → List ImageData
  | [] => []
  | TableRow.mk cells :: rs => images_of_cells cells ++ images_of_rows rs

/-- Images of the cells of one table row, in order. -/
def images_of_cells : List TableCell → List ImageData
  | [] => []
  | TableCell.mk e :: cs => images_of_element e ++ images_of_cells cs
end

mutual
/-- The urls of the image nodes of an output AST, in pre-order. -/
def image_urls_of_node : AstNode → List String
  | .node v kids =>
      (match v with
       | NodeValue.Image url _ => [url]
       | _ => []) ++ image_urls_of_nodes kids

/-- The urls of the image nodes of a forest, in order. -/
def image_urls_of_nodes : List AstNode → List String
  | [] => []
  | a :: as' => image_urls_of_node a ++ image_urls_of_nodes as'
end

/-- The filenames the lowering pass generates for a run of images when the
counter currently reads `n`: `image<n+1>.<ext>`, `image<n+2>.<ext>`, … -/
def image_names : Nat → List ImageData → List String
  | _, [] => []
  | n, d :: ds => ("image" ++ toString (n + 1) ++ to_extension d.image_type) :: image_names (n + 1) ds

mutual
/-- Decidable check that every `Hyperlink` inside an element has
`alt = "alt"` (the claim C10 invariant). -/
def alt_ok_element : Element → Bool
  | .Text _ _ => true
  | .Header _ _ => true
  | .Paragraph els => alt_ok_elements els
  | .List items _ => alt_ok_items items
  | .Hyperlink _ _ alt _ => alt == "alt"
  | .Image _ => true
  | .Table hs rs => alt_ok_headers hs && alt_ok_rows rs

/-- `alt_ok_element` over a list of elements. -/
def alt_ok_elements : List Element → Bool
  | [] => true
  | e :: es => alt_ok_element e && alt_ok_elements es

/-- `alt_ok_element` over list items. -/
def alt_ok_items : List ListItem → Bool
  | [] => true
  | ListItem.mk e :: items => alt_ok_element e && alt_ok_items items

/-- `alt_ok_element` over table headers. -/
def alt_ok_headers : List TableHeader → Bool
  | [] => true
  | TableHeader.mk e _ :: hs => alt_ok_element e && alt_ok_headers hs

/-- `alt_ok_element` over table rows. -/
def alt_ok_rows : List TableRow → Bool
  | [] => true
  | TableRow.mk cells :: rs => alt_ok_cells cells && alt_ok_rows rs

/-- `alt_ok_element` over table cells. -/
def alt_ok_cells : List TableCell → Bool
  | [] => true
  | TableCell.mk e :: cs => alt_ok_element e && alt_ok_cells cs
end

/-- The hyperlink-alt invariant over the whole builder state: sealed
elements, the open top-level scope, and the table side-channel. -/
def alt_ok_state (s : BuilderState) : Bool :=
  alt_ok_elements s.elements &&
  Option.all alt_ok_element s.current_element &&
  Option.all (fun t => alt_ok_element t.2) s.table_element

/-- Whether an element is the `List` variant. -/
def is_list_element : Element → Bool
  | .List _ _ => true
  | _ => false

/-- Whether an element is the `Hyperlink` or `Header` variant (the
placeholder-discard condition of `process_element_creation`). -/
def is_hyperlink_or_header : Element → Bool
  | .Hyperlink _ _ _ _ => true
  | .Header _ _ => true
  | _ => false

/-- Whether the last item of a list level holds a placeholder `Text`
element. -/
def last_item_is_text (items : List ListItem) : Bool :=
  match items.getLast? with
  | some (.mk (.Text _ _)) => true
  | _ => false

/-- Claim-side restatement of the wrap rule for C8, following the claim's
words: "appended directly to the item node when it is itself a list node,
appended directly when it is already a paragraph node, and otherwise wrapped
in a new paragraph node which is appended". -/
def claim_item_child (child : AstNode) : AstNode :=
  match child with
  | .node (NodeValue.List _ _) _ => child
  | .node NodeValue.Paragraph _ => child
  | other => .node .Paragraph [other]

/-- Claim-side lowering of the items of a `List` for C8: exactly one item
node per `ListItem`, in order, each holding its lowered child under
`claim_item_child`. -/
def claim_list_items (saver : Bytes → String → Bool) :
    List ListItem → Nat → Except ShivaError (List AstNode × Nat)
  | [], n => .ok ([], n)
  | item :: items, n =>
      match element_to_ast_node saver item.element n with
      | .ok (child, n1) =>
          match claim_list_items saver items n1 with
          | .ok (nds, n2) => .ok (AstNode.node .Item [claim_item_child child] :: nds, n2)
          | .error err => .error err
      | .error err => .error err

/-- Claim-side lowering of a whole `List` element for C8: a list node,
ordered exactly when `numbered`, wrapping the item nodes. -/
def lower_list_claim (saver : Bytes → String → Bool) (items : List ListItem)
    (numbered : Bool) (n : Nat) : Except ShivaError (AstNode × Nat) :=
  match claim_list_items saver items n with
  | .ok (kids, n') => .ok (.node (.List numbered (if numbered then 1 else 0)) kids, n')
  | .error e => .error e

/-- The result of a Paragraph/Heading/Link/Image end event (claim C5): a
`List` scope is put back unchanged, any other open scope is sealed into the
body, and a missing scope leaves the state alone. -/
def c5_end_result (s : BuilderState) : Except ShivaError BuilderState :=
  match s.current_element with
  | some (Element.List _ _) => .ok s
  | some el => .ok { s with current_element := none, elements := s.elements ++ [el] }
  | none => .ok s

/-!  ## Theorems -/

/-- Every error produced by a single builder step is a panic or an
image-load failure; the tagged `StructuralInvariantViolation` never occurs. -/
theorem step_error_kinds (loader : String → Option Bytes) (s : BuilderState) (e : Event)
    (err : ShivaError) (h : step loader s e = .error err) :
    err = ShivaError.Panicked ∨ err = ShivaError.ImageLoadFailed := by
  cases e with
  | Start tag =>
      cases tag <;> simp only [step] at h <;> (repeat' split at h) <;> simp_all
  | Text t =>
      simp only [step] at h
      split at h <;> simp_all
  | End tag =>
      cases tag <;> simp only [step] at h <;> (repeat' split at h) <;> simp_all
  | Other => simp [step] at h

/-- Every error produced by the whole event loop is a panic or an image-load
failure. -/
theorem run_events_error_kinds (loader : String → Option Bytes) (events : List Event)
    (s : BuilderState) (err : ShivaError) (h : run_events loader s events = .error err) :
    err = ShivaError.Panicked ∨ err = ShivaError.ImageLoadFailed := by
  induction events generalizing s with
  | nil => simp [run_events] at h
  | cons e es ih =>
      simp only [run_events] at h
      cases hstep : step loader s e with
      | ok s' => rw [hstep] at h; exact ih s' h
      | error err' =>
          rw [hstep] at h
          cases h
          exact step_error_kinds loader s e err hstep

/-- C1 (counterexample): on the event sequence `[ListStart, Text]` the
nesting-descent (`last_mut().unwrap()` on an empty item vector) panics, so
`build` surfaces a panic — not the tagged `StructuralInvariantViolation` the
claim requires — and the unbalanced sequence `[ListEnd]` (more `ListEnd` than
`ListStart`) surfaces no failure at all: the depth counter goes negative and
the build returns `Ok`. -/
theorem c1_counterexample :
    parse_with_loader (fun _ => none) [.Start (.List none), .Text "x"] =
        .error .Panicked ∧
      ShivaError.Panicked ≠ ShivaError.StructuralInvariantViolation ∧
      parse_with_loader (fun _ => none) [.End .List] = .ok (Document.new []) :=
  ⟨rfl, by decide, by rfl⟩

/-- C1 (amended): `build` never returns the tagged failure
`StructuralInvariantViolation`; when the nesting descent cannot find the
expected list-of-lists shape it panics instead, and event sequences with
more `ListEnd` than `ListStart` events need not fail at all. -/
theorem c1_amended_no_tagged_violation (loader : String → Option Bytes)
    (events : List Event) :
    parse_with_loader loader events ≠ .error .StructuralInvariantViolation := by
  unfold parse_with_loader
  cases hrun : run_events loader initial_state events with
  | ok s => simp
  | error err =>
      have := run_events_error_kinds loader events initial_state err hrun
      rcases this with h | h <;> simp [h]

/-- C2 (counterexample): the builder can produce a `Document` whose table has
a row with one cell but no headers (event sequence `[TableStart, Text,
TableEnd]`), so "every TableRow has exactly `headers.len()` cells" fails. -/
theorem c2_counterexample :
    parse_with_loader (fun _ => none) [.Start .Table, .Text "a", .End .Table] =
        .ok (Document.new
          [Element.Table [] [TableRow.mk [TableCell.mk (Element.Text "a" 14)]]]) ∧
      (TableRow.mk [TableCell.mk (Element.Text "a" 14)]).cells.length ≠
        ([] : List TableHeader).length :=
  ⟨by rfl, by decide⟩

/-- C2 (amended): the row-closing mechanism of the claim does hold — on a
text cell event, a last row holding exactly `headers.len()` cells is treated
as closed and a new single-cell row is started, while a last row with any
other cell count receives the cell — but the final `Document` may still
contain rows whose cell count differs from `headers.len()` (for example a
row built with no headers, or a row left unfilled when the stream ends). -/
theorem c2_amended_row_closing (text : String) (headers : List TableHeader)
    (rows : List TableRow) (cells : List TableCell)
    (h : rows.getLast? = some (TableRow.mk cells)) :
    table_text_step text (false, Element.Table headers rows) =
      (false, Element.Table headers
        (if cells.length = headers.length
         then rows ++ [TableRow.mk [TableCell.mk (Element.Text text 14)]]
         else rows.dropLast ++ [TableRow.mk (cells ++ [TableCell.mk (Element.Text text 14)])])) := by
  simp only [table_text_step, h]
  by_cases hc : cells.length = headers.length <;> simp [hc]

/-- C2 witness: a table with one header and one full row: the next text cell
event starts a new row. -/
theorem c2_amended_row_closing_witness :
    table_text_step "x" (false, Element.Table [TableHeader.mk (Element.Text "h" 14) 30]
        [TableRow.mk [TableCell.mk (Element.Text "a" 14)]]) =
      (false, Element.Table [TableHeader.mk (Element.Text "h" 14) 30]
        [TableRow.mk [TableCell.mk (Element.Text "a" 14)],
         TableRow.mk [TableCell.mk (Element.Text "x" 14)]]) := by
  have := c2_amended_row_closing "x" [TableHeader.mk (Element.Text "h" 14) 30]
    [TableRow.mk [TableCell.mk (Element.Text "a" 14)]]
    [TableCell.mk (Element.Text "a" 14)] (by rfl)
  simpa using this

/-- Splitting the event loop at an append. -/
theorem run_events_append (loader : String → Option Bytes) (s : BuilderState)
    (xs ys : List Event) :
    run_events loader s (xs ++ ys) =
      match run_events loader s xs with
      | .ok s' => run_events loader s' ys
      | .error e => .error e := by
  induction xs generalizing s with
  | nil => simp [run_events]
  | cons e es ih =>
      simp only [List.cons_append, run_events]
      cases step loader s e <;> simp [ih]

/-- C3: if the event stream reaches an image-start event whose source
reference makes the loader fail, the whole build aborts with the image-load
error; no partial `Document` is produced (the failure result carries none). -/
theorem c3_image_load_failure_aborts (loader : String → Option Bytes)
    (pre rest : List Event) (u t : String) (s : BuilderState)
    (hu : loader u = none)
    (hpre : run_events loader initial_state pre = .ok s) :
    parse_with_loader loader (pre ++ Event.Start (Tag.Image u t) :: rest) =
      .error .ImageLoadFailed := by
  unfold parse_with_loader
  rw [run_events_append, hpre]
  simp [run_events, step, hu]

/-- C3 witness: a lone failing image event aborts the build. -/
theorem c3_witness :
    parse_with_loader (fun _ => none) [Event.Start (Tag.Image "missing.png" "t")] =
      .error .ImageLoadFailed := by
  have := c3_image_load_failure_aborts (fun _ => none) [] [] "missing.png" "t"
    initial_state rfl rfl
  simpa using this

/-- C4: a successful image-start event discards whatever top-level scope was
open (the source first sets `current_element = None`) and installs the new
`Image` element — built from the loaded bytes, the title as both title and
alt, and the source reference as image type — as the top-level scope; the
sealed elements, list depth and table state are untouched. -/
theorem c4_image_start_replaces_scope (loader : String → Option Bytes)
    (s : BuilderState) (u t : String) (b : Bytes) (h : loader u = some b) :
    step loader s (.Start (.Image u t)) =
      .ok { s with current_element := some (Element.Image ⟨b, t, t, u, "", {}⟩) } := by
  simp [step, h, process_element_creation]

/-- C4 witness: with a paragraph open, a successful image event replaces it. -/
theorem c4_witness :
    step (fun _ => some [7])
      { elements := [], list_depth := 0,
        current_element := some (Element.Paragraph []), table_element := none }
      (.Start (.Image "pic.png" "cap")) =
      .ok { elements := [], list_depth := 0,
            current_element := some (Element.Image ⟨[7], "cap", "cap", "pic.png", "", {}⟩),
            table_element := none } := by
  have := c4_image_start_replaces_scope (fun _ => some [7])
    { elements := [], list_depth := 0,
      current_element := some (Element.Paragraph []), table_element := none }
    "pic.png" "cap" [7] rfl
  simpa using this

/-- A successful text event never changes the sealed body elements. -/
theorem handle_text_elements (text : String) (s s' : BuilderState)
    (h : handle_text text s = some s') : s'.elements = s.elements := by
  unfold handle_text at h
  (repeat' split at h) <;> first
    | (cases h; rfl)
    | simp_all

/-- C5: on an end event of kind Paragraph, Header, Link, or Image the builder
takes the open top-level scope and puts a `List` back unchanged while any
other taken element is sealed into the body; an end event of kind List
decrements the depth and seals the open scope exactly when the depth reaches
zero; and no start or text event ever changes the sealed body elements, so a
`List` held as the open scope is sealed only by the ListEnd event that brings
the depth to zero. -/
theorem c5_scope_end_rules (loader : String → Option Bytes) (s : BuilderState)
    (lv : HeadingLevel) :
    (step loader s (.End .Paragraph) = c5_end_result s ∧
     step loader s (.End (.Heading lv)) = c5_end_result s ∧
     step loader s (.End .Link) = c5_end_result s ∧
     step loader s (.End .Image) = c5_end_result s) ∧
    step loader s (.End .List) =
      .ok { s with
              list_depth := s.list_depth - 1,
              current_element := if s.list_depth - 1 = 0 then none else s.current_element,
              elements := if s.list_depth - 1 = 0 then s.elements ++ s.current_element.toList
                          else s.elements } ∧
    (∀ tag, Except.map BuilderState.elements (step loader s (.Start tag)) =
            Except.map (fun _ => s.elements) (step loader s (.Start tag))) ∧
    (∀ t, Except.map BuilderState.elements (step loader s (.Text t)) =
          Except.map (fun _ => s.elements) (step loader s (.Text t))) := by
  refine ⟨⟨?_, ?_, ?_, ?_⟩, ?_, ?_, ?_⟩
  · simp only [step, c5_end_result]
  · simp only [step, c5_end_result]
  · simp only [step, c5_end_result]
  · simp only [step, c5_end_result]
  · by_cases hd : s.list_depth - 1 = 0 <;>
      cases hc : s.current_element <;>
      simp [step, hd, hc]
  · intro tag
    cases tag <;> simp only [step] <;> (repeat' split) <;> rfl
  · intro t
    simp only [step]
    cases hh : handle_text t s with
    | none => rfl
    | some s' =>
        show Except.ok s'.elements = Except.ok s.elements
        rw [handle_text_elements t s s' hh]

/-- C5 witness: with an open list, a paragraph-end event puts it back, and a
list-end event at depth 1 seals it. -/
theorem c5_witness :
    step (fun _ => none)
      { elements := [], list_depth := 1,
        current_element := some (Element.List [] false), table_element := none }
      (.End .Paragraph) =
      .ok { elements := [], list_depth := 1,
            current_element := some (Element.List [] false), table_element := none } ∧
    step (fun _ => none)
      { elements := [], list_depth := 1,
        current_element := some (Element.List [] false), table_element := none }
      (.End .List) =
      .ok { elements := [Element.List [] false], list_depth := 0,
            current_element := none, table_element := none } := by
  have h := c5_scope_end_rules (fun _ => none)
    { elements := [], list_depth := 1,
      current_element := some (Element.List [] false), table_element := none } .H1
  refine ⟨?_, ?_⟩
  · rw [h.1.1]; rfl
  · rw [h.2.1]; rfl

/-- C6: at the target level of the nesting descent, a trailing placeholder
`Text` item is removed exactly when the incoming element is a `Hyperlink` or
a `Header`; for every other incoming variant (and whenever the last item is
not a `Text`) nothing is removed, and the incoming element is appended
wrapped in a `ListItem`. -/
theorem c6_target_level_insertion (items : List ListItem) (el : Element) :
    descend_insert 0 items el =
      some ((if is_hyperlink_or_header el && last_item_is_text items
             then items.dropLast else items) ++ [ListItem.mk el]) := by
  cases el
  case Text t sz => rfl
  case Paragraph els => rfl
  case List its nb => rfl
  case Image d => rfl
  case Table hs rs => rfl
  case Header lv t =>
    rcases hg : items.getLast? with _ | ⟨⟨e⟩⟩
    · simp [descend_insert, is_hyperlink_or_header, last_item_is_text, hg]
    · cases e <;> simp [descend_insert, is_hyperlink_or_header, last_item_is_text, hg]
  case Hyperlink a b c d =>
    rcases hg : items.getLast? with _ | ⟨⟨e⟩⟩
    · simp [descend_insert, is_hyperlink_or_header, last_item_is_text, hg]
    · cases e <;> simp [descend_insert, is_hyperlink_or_header, last_item_is_text, hg]

/-- C9 (counterexample): a List start event arriving while a Paragraph scope
is open does discard the new list element, but it still increments
`list_depth` — the builder state changes, contradicting "no builder state
changes". -/
theorem c9_counterexample :
    step (fun _ => none)
      { elements := [], list_depth := 0,
        current_element := some (Element.Paragraph []), table_element := none }
      (Event.Start (Tag.List none)) =
      .ok { elements := [], list_depth := 1,
            current_element := some (Element.Paragraph []), table_element := none } ∧
    (1 : Int) ≠ 0 :=
  ⟨rfl, by decide⟩

/-- C9 (amended): a structural start event of kind Paragraph, Header, Item,
or Link arriving while the open top-level scope is not a `List` silently
discards the newly created element and changes nothing, raising no error; a
List start event likewise discards the element and raises no error, but it
still increments `list_depth`. -/
theorem c9_amended_discard (loader : String → Option Bytes) (s : BuilderState)
    (el : Element) (lv : HeadingLevel) (nb : Option Nat) (u t : String)
    (hcur : s.current_element = some el) (hnl : is_list_element el = false) :
    step loader s (.Start .Paragraph) = .ok s ∧
    step loader s (.Start (.Heading lv)) = .ok s ∧
    step loader s (.Start .Item) = .ok s ∧
    step loader s (.Start (.Link u t)) = .ok s ∧
    step loader s (.Start (.List nb)) = .ok { s with list_depth := s.list_depth + 1 } := by
  have hpec : ∀ el' d, process_element_creation s.current_element el' d = some (some el) := by
    intro el' d
    rw [hcur]
    cases el <;> simp_all [process_element_creation, is_list_element]
  refine ⟨?_, ?_, ?_, ?_, ?_⟩ <;>
    simp only [step, hpec] <;> rw [← hcur]

/-- C9 witness: with an open header scope, a paragraph start changes nothing
and a list start only bumps the depth. -/
theorem c9_amended_discard_witness :
    step (fun _ => none)
      { elements := [], list_depth := 0,
        current_element := some (Element.Header 1 "h"), table_element := none }
      (.Start .Paragraph) =
      .ok { elements := [], list_depth := 0,
            current_element := some (Element.Header 1 "h"), table_element := none } ∧
    step (fun _ => none)
      { elements := [], list_depth := 0,
        current_element := some (Element.Header 1 "h"), table_element := none }
      (.Start (.List (some 1))) =
      .ok { elements := [], list_depth := 1,
            current_element := some (Element.Header 1 "h"), table_element := none } := by
  have h := c9_amended_discard (fun _ => none)
    { elements := [], list_depth := 0,
      current_element := some (Element.Header 1 "h"), table_element := none }
    (Element.Header 1 "h") .H1 (some 1) "u" "t" rfl rfl
  exact ⟨h.1, h.2.2.2.2⟩

/-- The source's wrap rule for list-item children and the claim's wrap rule
coincide. -/
theorem wrap_list_child_eq_claim (c : AstNode) : wrap_list_child c = claim_item_child c := by
  cases c with
  | node v kids => cases v <;> rfl

/-- The source's item lowering equals the claim-side item lowering. -/
theorem list_items_to_nodes_eq_claim (saver : Bytes → String → Bool)
    (items : List ListItem) : ∀ n,
    list_items_to_nodes saver items n = claim_list_items saver items n := by
  induction items with
  | nil => intro n; rfl
  | cons item rest ih =>
      intro n
      cases item with
      | mk e =>
          simp only [list_items_to_nodes, claim_list_items, ListItem.element]
          cases element_to_ast_node saver e n with
          | error err => rfl
          | ok p =>
              cases p with
              | mk child n1 => simp [ih, wrap_list_child_eq_claim]

/-- C8: lowering a `List` element produces a list node — ordered exactly when
`numbered` is true, bullet otherwise — wrapping exactly one item node per
`ListItem`, in order; each item's lowered child is appended directly when it
is a list node, appended directly when it is already a paragraph node, and
otherwise wrapped in a new paragraph node which is appended. -/
theorem c8_list_lowering (saver : Bytes → String → Bool) (items : List ListItem)
    (numbered : Bool) (n : Nat) :
    element_to_ast_node saver (Element.List items numbered) n =
      lower_list_claim saver items numbered n := by
  simp only [element_to_ast_node, lower_list_claim, list_items_to_nodes_eq_claim]

/-- Generated filenames for a concatenation of image runs. -/
theorem image_names_append (xs ys : List ImageData) : ∀ n,
    image_names n (xs ++ ys) = image_names n xs ++ image_names (n + xs.length) ys := by
  induction xs with
  | nil => intro n; simp [image_names]
  | cons d ds ih =>
      intro n
      have hc : (d :: ds) ++ ys = d :: (ds ++ ys) := rfl
      rw [hc, image_names, image_names, ih]
      have h : n + 1 + ds.length = n + (d :: ds).length := by
        simp only [List.length_cons]; omega
      rw [h]
      rfl

/-- Wrapping a list-item child does not change the image urls it contains. -/
theorem image_urls_wrap (c : AstNode) :
    image_urls_of_node (wrap_list_child c) = image_urls_of_node c := by
  cases c with
  | node v kids =>
      cases v <;> simp [wrap_list_child, image_urls_of_node, image_urls_of_nodes]

mutual
/-- Counter/filename characterization of lowering one element with an
always-succeeding saver: the counter advances by the number of contained
images and the produced image urls are the sequentially generated names. -/
theorem lower_images_element (saver : Bytes → String → Bool)
    (hsv : ∀ b f, saver b f = true) (el : Element) (n : Nat) :
    ∃ nd, element_to_ast_node saver el n =
        .ok (nd, n + (images_of_element el).length) ∧
      image_urls_of_node nd = image_names n (images_of_element el) := by
  cases el with
  | Text t sz =>
      exact ⟨.node (.Text t) [],
        by simp [element_to_ast_node, images_of_element, image_names],
        by simp [image_urls_of_node, image_urls_of_nodes, images_of_element, image_names]⟩
  | Header lv t =>
      exact ⟨.node (.Heading lv) [.node (.Text t) []],
        by simp [element_to_ast_node, images_of_element, image_names],
        by simp [image_urls_of_node, image_urls_of_nodes, images_of_element, image_names]⟩
  | Paragraph els =>
      obtain ⟨nds, h1, h2⟩ := lower_images_elements saver hsv els n
      refine ⟨.node .Paragraph nds, ?_, ?_⟩
      · simp [element_to_ast_node, h1, images_of_element]
      · simp [image_urls_of_node, h2, images_of_element]
  | List items numbered =>
      obtain ⟨nds, h1, h2⟩ := lower_images_items saver hsv items n
      refine ⟨.node (.List numbered (if numbered then 1 else 0)) nds, ?_, ?_⟩
      · simp [element_to_ast_node, h1, images_of_element]
      · simp [image_urls_of_node, h2, images_of_element]
  | Hyperlink title url alt sz =>
      exact ⟨.node (.Link url alt) [.node (.Text title) []],
        by simp [element_to_ast_node, images_of_element, image_names],
        by simp [image_urls_of_node, image_urls_of_nodes, images_of_element, image_names]⟩
  | Image d =>
      refine ⟨.node .Paragraph
        [.node (.Image ("image" ++ toString (n + 1) ++ to_extension d.image_type) d.title) []],
        ?_, ?_⟩
      · simp [element_to_ast_node, hsv, images_of_element, image_names]
      · simp [image_urls_of_node, image_urls_of_nodes, images_of_element, image_names]
  | Table hs rs =>
      obtain ⟨hcells, hh1, hh2⟩ := lower_images_headers saver hsv hs n
      obtain ⟨rnodes, hr1, hr2⟩ :=
        lower_images_rows saver hsv rs (n + (images_of_headers hs).length)
      refine ⟨.node (.Table hs.length (rs.length + 1))
        (.node (.TableRow true) hcells :: rnodes), ?_, ?_⟩
      · simp only [element_to_ast_node, hh1, hr1, images_of_element]
        have h : n + (images_of_headers hs).length + (images_of_rows rs).length =
            n + (images_of_headers hs ++ images_of_rows rs).length := by
          simp only [List.length_append]; omega
        rw [h]
      · simp only [image_urls_of_node, image_urls_of_nodes, images_of_element,
          image_names_append, hh2, hr2, List.append_nil, List.nil_append]

/-- Counter/filename characterization for a list of elements. -/
theorem lower_images_elements (saver : Bytes → String → Bool)
    (hsv : ∀ b f, saver b f = true) (els : List Element) (n : Nat) :
    ∃ nds, elements_to_ast_nodes saver els n =
        .ok (nds, n + (images_of_elements els).length) ∧
      image_urls_of_nodes nds = image_names n (images_of_elements els) := by
  cases els with
  | nil =>
      exact ⟨[], by simp [elements_to_ast_nodes, images_of_elements],
        by simp [image_urls_of_nodes, images_of_elements, image_names]⟩
  | cons e es =>
      obtain ⟨nd, h1, h2⟩ := lower_images_element saver hsv e n
      obtain ⟨nds, h3, h4⟩ :=
        lower_images_elements saver hsv es (n + (images_of_element e).length)
      refine ⟨nd :: nds, ?_, ?_⟩
      · simp only [elements_to_ast_nodes, h1, h3, images_of_elements]
        have h : n + (images_of_element e).length + (images_of_elements es).length =
            n + (images_of_element e ++ images_of_elements es).length := by
          simp only [List.length_append]; omega
        rw [h]
      · simp only [image_urls_of_nodes, images_of_elements, image_names_append, h2, h4]

/-- Counter/filename characterization for the items of a `List` element. -/
theorem lower_images_items (saver : Bytes → String → Bool)
    (hsv : ∀ b f, saver b f = true) (items : List ListItem) (n : Nat) :
    ∃ nds, list_items_to_nodes saver items n =
        .ok (nds, n + (images_of_items items).length) ∧
      image_urls_of_nodes nds = image_names n (images_of_items items) := by
  cases items with
  | nil =>
      exact ⟨[], by simp [list_items_to_nodes, images_of_items],
        by simp [image_urls_of_nodes, images_of_items, image_names]⟩
  | cons item rest =>
      cases item with
      | mk e =>
          obtain ⟨nd, h1, h2⟩ := lower_images_element saver hsv e n
          obtain ⟨nds, h3, h4⟩ :=
            lower_images_items saver hsv rest (n + (images_of_element e).length)
          refine ⟨AstNode.node .Item [wrap_list_child nd] :: nds, ?_, ?_⟩
          · simp only [list_items_to_nodes, h1, h3, images_of_items]
            have h : n + (images_of_element e).length + (images_of_items rest).length =
                n + (images_of_element e ++ images_of_items rest).length := by
              simp only [List.length_append]; omega
            rw [h]
          · simp only [image_urls_of_nodes, image_urls_of_node, images_of_items,
              image_names_append, image_urls_wrap, h2, h4, List.append_nil, List.nil_append]

/-- Counter/filename characterization for table headers. -/
theorem lower_images_headers (saver : Bytes → String → Bool)
    (hsv : ∀ b f, saver b f = true) (hs : List TableHeader) (n : Nat) :
    ∃ nds, table_headers_to_cells saver hs n =
        .ok (nds, n + (images_of_headers hs).length) ∧
      image_urls_of_nodes nds = image_names n (images_of_headers hs) := by
  cases hs with
  | nil =>
      exact ⟨[], by simp [table_headers_to_cells, images_of_headers],
        by simp [image_urls_of_nodes, images_of_headers, image_names]⟩
  | cons h hs' =>
      cases h with
      | mk e w =>
          obtain ⟨nd, h1, h2⟩ := lower_images_element saver hsv e n
          obtain ⟨nds, h3, h4⟩ :=
            lower_images_headers saver hsv hs' (n + (images_of_element e).length)
          refine ⟨AstNode.node .TableCell [nd] :: nds, ?_, ?_⟩
          · simp only [table_headers_to_cells, h1, h3, images_of_headers]
            have h : n + (images_of_element e).length + (images_of_headers hs').length =
                n + (images_of_element e ++ images_of_headers hs').length := by
              simp only [List.length_append]; omega
            rw [h]
          · simp only [image_urls_of_nodes, image_urls_of_node, images_of_headers,
              image_names_append, h2, h4, List.append_nil, List.nil_append]

/-- Counter/filename characterization for table rows. -/
theorem lower_images_rows (saver : Bytes → String → Bool)
    (hsv : ∀ b f, saver b f = true) (rs : List TableRow) (n : Nat) :
    ∃ nds, table_rows_to_nodes saver rs n =
        .ok (nds, n + (images_of_rows rs).length) ∧
      image_urls_of_nodes nds = image_names n (images_of_rows rs) := by
  cases rs with
  | nil =>
      exact ⟨[], by simp [table_rows_to_nodes, images_of_rows],
        by simp [image_urls_of_nodes, images_of_rows, image_names]⟩
  | cons r rs' =>
      cases r with
      | mk cells =>
          obtain ⟨cnodes, h1, h2⟩ := lower_images_cells saver hsv cells n
          obtain ⟨nds, h3, h4⟩ :=
            lower_images_rows saver hsv rs' (n + (images_of_cells cells).length)
          refine ⟨AstNode.node (.TableRow false) cnodes :: nds, ?_, ?_⟩
          · simp only [table_rows_to_nodes, h1, h3, images_of_rows]
            have h : n + (images_of_cells cells).length + (images_of_rows rs').length =
                n + (images_of_cells cells ++ images_of_rows rs').length := by
              simp only [List.length_append]; omega
            rw [h]
          · simp only [image_urls_of_nodes, image_urls_of_node, images_of_rows,
              image_names_append, h2, h4, List.nil_append]

/-- Counter/filename characterization for the cells of one table row. -/
theorem lower_images_cells (saver : Bytes → String → Bool)
    (hsv : ∀ b f, saver b f = true) (cs : List TableCell) (n : Nat) :
    ∃ nds, table_cells_to_nodes saver cs n =
        .ok (nds, n + (images_of_cells cs).length) ∧
      image_urls_of_nodes nds = image_names n (images_of_cells cs) := by
  cases cs with
  | nil =>
      exact ⟨[], by simp [table_cells_to_nodes, images_of_cells],
        by simp [image_urls_of_nodes, images_of_cells, image_names]⟩
  | cons c cs' =>
      cases c with
      | mk e =>
          obtain ⟨nd, h1, h2⟩ := lower_images_element saver hsv e n
          obtain ⟨nds, h3, h4⟩ :=
            lower_images_cells saver hsv cs' (n + (images_of_element e).length)
          refine ⟨AstNode.node .TableCell [nd] :: nds, ?_, ?_⟩
          · simp only [table_cells_to_nodes, h1, h3, images_of_cells]
            have h : n + (images_of_element e).length + (images_of_cells cs').length =
                n + (images_of_element e ++ images_of_cells cs').length := by
              simp only [List.length_append]; omega
            rw [h]
          · simp only [image_urls_of_nodes, image_urls_of_node, images_of_cells,
              image_names_append, h2, h4, List.append_nil, List.nil_append]
end

/-- C7: with a pure always-succeeding saver, lowering a `Document` is a pure
function of the document (so two fresh calls yield identical output trees),
and on each fresh call the image counter restarts: the image urls of the
output tree are exactly `image1.<ext>`, `image2.<ext>`, … numbered from 1 in
encounter order over page header, body and page footer. -/
theorem c7_fresh_image_counter (doc : Document) (saver : Bytes → String → Bool)
    (hsv : ∀ b f, saver b f = true) :
    ∃ tree, generate_with_saver saver doc = .ok tree ∧
      image_urls_of_node tree =
        image_names 0
          (images_of_elements (doc.page_header ++ doc.elements ++ doc.page_footer)) := by
  obtain ⟨nds, h1, h2⟩ := lower_images_elements saver hsv
    (doc.page_header ++ doc.elements ++ doc.page_footer) 0
  refine ⟨.node .Document nds, ?_, ?_⟩
  · simp only [generate_with_saver, h1]
  · simp only [image_urls_of_node, h2, List.nil_append]

/-- C7 witness: a two-image document lowers with filenames `image1.` and
`image2.` derived from the image types. -/
theorem c7_witness :
    ∃ tree, generate_with_saver (fun _ _ => true)
        (Document.new [Element.Image ⟨[1], "a", "a", "png", "", {}⟩,
                       Element.Image ⟨[2], "b", "b", "png", "", {}⟩]) = .ok tree ∧
      image_urls_of_node tree =
        image_names 0
          (images_of_elements
            ((Document.new [Element.Image ⟨[1], "a", "a", "png", "", {}⟩,
                            Element.Image ⟨[2], "b", "b", "png", "", {}⟩]).page_header ++
              (Document.new [Element.Image ⟨[1], "a", "a", "png", "", {}⟩,
                             Element.Image ⟨[2], "b", "b", "png", "", {}⟩]).elements ++
              (Document.new [Element.Image ⟨[1], "a", "a", "png", "", {}⟩,
                             Element.Image ⟨[2], "b", "b", "png", "", {}⟩]).page_footer)) :=
  c7_fresh_image_counter _ _ (fun _ _ => rfl)

/-- `alt_ok_elements` distributes over append. -/
theorem alt_ok_elements_append (xs ys : List Element) :
    alt_ok_elements (xs ++ ys) = (alt_ok_elements xs && alt_ok_elements ys) := by
  induction xs with
  | nil => simp [alt_ok_elements]
  | cons e es ih => simp [alt_ok_elements, ih, Bool.and_assoc]

/-- `alt_ok_items` distributes over append. -/
theorem alt_ok_items_append (xs ys : List ListItem) :
    alt_ok_items (xs ++ ys) = (alt_ok_items xs && alt_ok_items ys) := by
  induction xs with
  | nil => simp [alt_ok_items]
  | cons i is ih => cases i; simp [alt_ok_items, ih, Bool.and_assoc]

/-- `alt_ok_headers` distributes over append. -/
theorem alt_ok_headers_append (xs ys : List TableHeader) :
    alt_ok_headers (xs ++ ys) = (alt_ok_headers xs && alt_ok_headers ys) := by
  induction xs with
  | nil => simp [alt_ok_headers]
  | cons i is ih => cases i; simp [alt_ok_headers, ih, Bool.and_assoc]

/-- `alt_ok_rows` distributes over append. -/
theorem alt_ok_rows_append (xs ys : List TableRow) :
    alt_ok_rows (xs ++ ys) = (alt_ok_rows xs && alt_ok_rows ys) := by
  induction xs with
  | nil => simp [alt_ok_rows]
  | cons i is ih => cases i; simp [alt_ok_rows, ih, Bool.and_assoc]

/-- `alt_ok_cells` distributes over append. -/
theorem alt_ok_cells_append (xs ys : List TableCell) :
    alt_ok_cells (xs ++ ys) = (alt_ok_cells xs && alt_ok_cells ys) := by
  induction xs with
  | nil => simp [alt_ok_cells]
  | cons i is ih => cases i; simp [alt_ok_cells, ih, Bool.and_assoc]

/-- A `getLast?` hit is a member of the list. -/
theorem mem_of_getLastOpt {α : Type} {l : List α} {a : α} (h : l.getLast? = some a) :
    a ∈ l := by
  have hd := List.dropLast_append_getLast? (l := l) a h
  rw [← hd]
  exact List.mem_append_right _ (List.mem_singleton_self a)

/-- `alt_ok_items` as a membership property. -/
theorem alt_ok_items_iff (items : List ListItem) :
    alt_ok_items items = true ↔ ∀ i ∈ items, alt_ok_element i.element = true := by
  induction items with
  | nil => simp [alt_ok_items]
  | cons i is ih => cases i; simp [alt_ok_items, ih, ListItem.element]

/-- `alt_ok_rows` as a membership property. -/
theorem alt_ok_rows_iff (rows : List TableRow) :
    alt_ok_rows rows = true ↔ ∀ r ∈ rows, alt_ok_cells r.cells = true := by
  induction rows with
  | nil => simp [alt_ok_rows]
  | cons r rs ih => cases r; simp [alt_ok_rows, ih, TableRow.cells]

/-- `alt_ok_items` survives `dropLast`. -/
theorem alt_ok_items_dropLast (items : List ListItem) (h : alt_ok_items items = true) :
    alt_ok_items items.dropLast = true := by
  rw [alt_ok_items_iff] at h ⊢
  exact fun i hi => h i (List.mem_of_mem_dropLast hi)

/-- `alt_ok_rows` survives `dropLast`. -/
theorem alt_ok_rows_dropLast (rows : List TableRow) (h : alt_ok_rows rows = true) :
    alt_ok_rows rows.dropLast = true := by
  rw [alt_ok_rows_iff] at h ⊢
  exact fun r hr => h r (List.mem_of_mem_dropLast hr)

/-- Appending a hyperlink-alt-clean element as a new `ListItem` preserves the
invariant. -/
theorem alt_ok_items_push (items : List ListItem) (el : Element)
    (h1 : alt_ok_items items = true) (h2 : alt_ok_element el = true) :
    alt_ok_items (items ++ [ListItem.mk el]) = true := by
  rw [alt_ok_items_iff] at h1 ⊢
  intro i hi
  rcases List.mem_append.mp hi with hmem | hmem
  · exact h1 i hmem
  · simp only [List.mem_singleton] at hmem
    subst hmem
    simpa [ListItem.element] using h2

/-- The descent-and-insert of `process_element_creation` preserves the
hyperlink-alt invariant. -/
theorem descend_insert_alt_ok :
    ∀ (n : Nat) (items items' : List ListItem) (el : Element),
      descend_insert n items el = some items' →
      alt_ok_items items = true → alt_ok_element el = true →
      alt_ok_items items' = true := by
  intro n
  induction n with
  | zero =>
      intro items items' el h h1 h2
      have hdrop := alt_ok_items_dropLast items h1
      cases el <;> simp only [descend_insert] at h
      case Header lv t =>
        rcases hg : items.getLast? with _ | ⟨⟨e⟩⟩ <;> rw [hg] at h
        · cases h; exact alt_ok_items_push items _ h1 h2
        · cases e <;> cases h <;>
            first
              | exact alt_ok_items_push items.dropLast _ hdrop h2
              | exact alt_ok_items_push items _ h1 h2
      case Hyperlink a b c d =>
        rcases hg : items.getLast? with _ | ⟨⟨e⟩⟩ <;> rw [hg] at h
        · cases h; exact alt_ok_items_push items _ h1 h2
        · cases e <;> cases h <;>
            first
              | exact alt_ok_items_push items.dropLast _ hdrop h2
              | exact alt_ok_items_push items _ h1 h2
      all_goals (cases h; exact alt_ok_items_push items _ h1 h2)
  | succ n ih =>
      intro items items' el h h1 h2
      simp only [descend_insert] at h
      split at h
      · rename_i inner numbered hg
        split at h
        · rename_i inner' hdi
          cases h
          have hinner : alt_ok_items inner = true := by
            have := (alt_ok_items_iff items).mp h1 _ (mem_of_getLastOpt hg)
            simpa [ListItem.element, alt_ok_element] using this
          have hinner' := ih inner inner' el hdi hinner h2
          exact alt_ok_items_push items.dropLast _
            (alt_ok_items_dropLast items h1)
            (by simpa [alt_ok_element] using hinner')
        · cases h
      · cases h

/-- The in-list text routing preserves the hyperlink-alt invariant: the text
either extends a `Text` item, overwrites a `Hyperlink` title (never its alt),
overwrites a `Header` text, or leaves the item unchanged. -/
theorem text_into_list_alt_ok :
    ∀ (n : Nat) (items items' : List ListItem) (text : String),
      text_into_list n items text = some items' →
      alt_ok_items items = true →
      alt_ok_items items' = true := by
  intro n
  induction n with
  | zero =>
      intro items items' text h h1
      simp only [text_into_list] at h
      rcases hg : items.getLast? with _ | ⟨⟨e⟩⟩ <;> rw [hg] at h
      · cases h
      · have he : alt_ok_element e = true := by
          have := (alt_ok_items_iff items).mp h1 _ (mem_of_getLastOpt hg)
          simpa [ListItem.element] using this
        have hdrop := alt_ok_items_dropLast items h1
        cases e <;> cases h <;>
          exact alt_ok_items_push items.dropLast _ hdrop (by simpa [alt_ok_element] using he)
  | succ n ih =>
      intro items items' text h h1
      simp only [text_into_list] at h
      split at h
      · rename_i inner numbered hg
        split at h
        · rename_i inner' hdi
          cases h
          have hinner : alt_ok_items inner = true := by
            have := (alt_ok_items_iff items).mp h1 _ (mem_of_getLastOpt hg)
            simpa [ListItem.element, alt_ok_element] using this
          have hinner' := ih inner inner' text hdi hinner
          exact alt_ok_items_push items.dropLast _
            (alt_ok_items_dropLast items h1)
            (by simpa [alt_ok_element] using hinner')
        · cases h
      · cases h

/-- `process_element_creation` preserves the hyperlink-alt invariant of the
open scope. -/
theorem process_element_creation_alt_ok (current : Option Element) (el : Element)
    (d : Int) (cur' : Option Element)
    (h : process_element_creation current el d = some cur')
    (h1 : Option.all alt_ok_element current = true)
    (h2 : alt_ok_element el = true) :
    Option.all alt_ok_element cur' = true := by
  cases current with
  | none =>
      simp only [process_element_creation] at h
      cases h
      simpa using h2
  | some e =>
      cases e <;> simp only [process_element_creation] at h <;> try (cases h; exact h1)
      case List items numbered =>
        split at h
        · rename_i items' hdi
          cases h
          have hcur : alt_ok_items items = true := by simpa [alt_ok_element] using h1
          simpa [alt_ok_element] using descend_insert_alt_ok _ items items' el hdi hcur h2
        · cases h

/-- `table_text_step` preserves the hyperlink-alt invariant of the table
side-channel element. -/
theorem table_text_step_alt_ok (text : String) (p : Bool × Element)
    (h : alt_ok_element p.2 = true) :
    alt_ok_element (table_text_step text p).2 = true := by
  obtain ⟨b, t⟩ := p
  cases t <;> try exact h
  case Table hs rs =>
    simp only [alt_ok_element, Bool.and_eq_true] at h
    obtain ⟨hh, hr⟩ := h
    simp only [table_text_step]
    split
    · simp only [alt_ok_element, Bool.and_eq_true]
      refine ⟨?_, hr⟩
      rw [alt_ok_headers_append]
      simp [hh, alt_ok_headers, alt_ok_element]
    · split
      · rename_i cells hg
        have hcells : alt_ok_cells cells = true := by
          have := (alt_ok_rows_iff rs).mp hr _ (mem_of_getLastOpt hg)
          simpa [TableRow.cells] using this
        split
        · simp only [alt_ok_element, Bool.and_eq_true]
          refine ⟨hh, ?_⟩
          rw [alt_ok_rows_append]
          simp [hr, alt_ok_rows, alt_ok_cells, alt_ok_element]
        · simp only [alt_ok_element, Bool.and_eq_true]
          refine ⟨hh, ?_⟩
          rw [alt_ok_rows_append, Bool.and_eq_true]
          refine ⟨alt_ok_rows_dropLast rs hr, ?_⟩
          simp only [alt_ok_rows, Bool.and_true]
          rw [alt_ok_cells_append]
          simp [hcells, alt_ok_cells, alt_ok_element]
      · simp [alt_ok_element, hh, alt_ok_rows, alt_ok_cells]

/-- `handle_text` preserves the hyperlink-alt invariant of the whole state;
in particular the text event routed to an open `Hyperlink` scope is a
self-assignment that never changes its `alt`. -/
theorem handle_text_alt_ok (text : String) (s s' : BuilderState)
    (h : handle_text text s = some s') (hs : alt_ok_state s = true) :
    alt_ok_state s' = true := by
  simp only [alt_ok_state, Bool.and_eq_true] at hs
  obtain ⟨⟨hel, hcur⟩, htab⟩ := hs
  have htab' : Option.all (fun t => alt_ok_element t.2)
      (Option.map (table_text_step text) s.table_element) = true := by
    cases ht : s.table_element with
    | none => rfl
    | some p =>
        rw [ht] at htab
        show alt_ok_element (table_text_step text p).2 = true
        exact table_text_step_alt_ok text p (by simpa using htab)
  cases hc : s.current_element with
  | none =>
      simp only [handle_text, hc] at h
      cases h
      simp only [alt_ok_state, Bool.and_eq_true]
      exact ⟨⟨hel, rfl⟩, htab'⟩
  | some e =>
      rw [hc] at hcur
      cases e <;> simp only [handle_text, hc] at h
      case Paragraph els =>
          cases h
          simp only [alt_ok_state, Bool.and_eq_true]
          refine ⟨⟨hel, ?_⟩, htab'⟩
          simp only [Option.all_some, alt_ok_element] at hcur ⊢
          rw [alt_ok_elements_append]
          simp [hcur, alt_ok_elements, alt_ok_element]
      case Header lv t =>
          cases h
          simp only [alt_ok_state, Bool.and_eq_true]
          exact ⟨⟨hel, by simp [alt_ok_element]⟩, htab'⟩
      case List items numbered =>
          split at h
          · cases h
          · rename_i cur hcm
            cases h
            split at hcm
            · rename_i items' hti
              cases hcm
              simp only [alt_ok_state, Bool.and_eq_true]
              refine ⟨⟨hel, ?_⟩, htab'⟩
              simp only [Option.all_some, alt_ok_element] at hcur ⊢
              exact text_into_list_alt_ok _ items items' text hti hcur
            · cases hcm
      case Image data =>
          cases h
          simp only [alt_ok_state, Bool.and_eq_true]
          exact ⟨⟨hel, by simp [alt_ok_element]⟩, htab'⟩
      case Hyperlink title url alt sz =>
          cases h
          simp only [alt_ok_state, Bool.and_eq_true]
          exact ⟨⟨hel, by simpa using hcur⟩, htab'⟩
      case Text t sz =>
          cases h
          simp only [alt_ok_state, Bool.and_eq_true]
          exact ⟨⟨hel, by simpa using hcur⟩, htab'⟩
      case Table hs2 rs2 =>
          cases h
          simp only [alt_ok_state, Bool.and_eq_true]
          exact ⟨⟨hel, by simpa using hcur⟩, htab'⟩

/-- A single builder step preserves the hyperlink-alt invariant: every
element the builder ever creates carries `alt = "alt"` when it is a
`Hyperlink`, and no event handler ever writes another value into an `alt`
field of a `Hyperlink`. -/
theorem step_alt_ok (loader : String → Option Bytes) (s s' : BuilderState) (e : Event)
    (h : step loader s e = .ok s') (hs : alt_ok_state s = true) :
    alt_ok_state s' = true := by
  have hsplit := hs
  simp only [alt_ok_state, Bool.and_eq_true] at hsplit
  obtain ⟨⟨hel, hcur⟩, htab⟩ := hsplit
  have hseal : ∀ el, alt_ok_element el = true →
      alt_ok_elements (s.elements ++ [el]) = true := by
    intro el hel2
    rw [alt_ok_elements_append]
    simp [hel, alt_ok_elements, hel2]
  cases e with
  | Start tag =>
      cases tag
      case Paragraph =>
          simp only [step] at h
          split at h
          · rename_i cur hp
            cases h
            simp only [alt_ok_state, Bool.and_eq_true]
            refine ⟨⟨hel, ?_⟩, htab⟩
            exact process_element_creation_alt_ok _ _ _ _ hp hcur
              (by simp [alt_ok_element, alt_ok_elements])
          · cases h
      case Heading lv =>
          simp only [step] at h
          split at h
          · rename_i cur hp
            cases h
            simp only [alt_ok_state, Bool.and_eq_true]
            refine ⟨⟨hel, ?_⟩, htab⟩
            exact process_element_creation_alt_ok _ _ _ _ hp hcur
              (by simp [alt_ok_element])
          · cases h
      case List nb =>
          simp only [step] at h
          split at h
          · rename_i cur hp
            cases h
            simp only [alt_ok_state, Bool.and_eq_true]
            refine ⟨⟨hel, ?_⟩, htab⟩
            exact process_element_creation_alt_ok _ _ _ _ hp hcur
              (by simp [alt_ok_element, alt_ok_items])
          · cases h
      case Item =>
          simp only [step] at h
          split at h
          · rename_i cur hp
            cases h
            simp only [alt_ok_state, Bool.and_eq_true]
            refine ⟨⟨hel, ?_⟩, htab⟩
            exact process_element_creation_alt_ok _ _ _ _ hp hcur
              (by simp [alt_ok_element])
          · cases h
      case Link u t =>
          simp only [step] at h
          split at h
          · rename_i cur hp
            cases h
            simp only [alt_ok_state, Bool.and_eq_true]
            refine ⟨⟨hel, ?_⟩, htab⟩
            exact process_element_creation_alt_ok _ _ _ _ hp hcur
              (by simp [alt_ok_element])
          · cases h
      case Image u t =>
          simp only [step] at h
          split at h
          · cases h
          · rename_i b hb
            split at h
            · rename_i cur hp
              cases h
              simp only [alt_ok_state, Bool.and_eq_true]
              refine ⟨⟨hel, ?_⟩, htab⟩
              exact process_element_creation_alt_ok _ _ _ _ hp (by rfl)
                (by simp [alt_ok_element])
            · cases h
      case Table =>
          simp only [step] at h
          cases h
          simp only [alt_ok_state, Bool.and_eq_true]
          exact ⟨⟨hel, hcur⟩, by simp [alt_ok_element, alt_ok_headers, alt_ok_rows]⟩
      case TableHead =>
          simp only [step] at h
          cases h
          simp only [alt_ok_state, Bool.and_eq_true]
          refine ⟨⟨hel, hcur⟩, ?_⟩
          cases ht : s.table_element with
          | none => rfl
          | some p =>
              rw [ht] at htab
              simpa using htab
      case Other =>
          simp only [step] at h
          cases h
          exact hs
  | Text t =>
      simp only [step] at h
      cases hht : handle_text t s with
      | none => rw [hht] at h; cases h
      | some s2 =>
          rw [hht] at h
          cases h
          exact handle_text_alt_ok t s _ hht hs
  | End tag =>
      cases tag
      case Paragraph =>
          simp only [step] at h
          split at h <;> rename_i heq <;> cases h
          · exact hs
          · rename_i hne
            rw [heq] at hcur
            simp only [alt_ok_state, Bool.and_eq_true]
            exact ⟨⟨hseal _ (by simpa using hcur), rfl⟩, htab⟩
          · exact hs
      case Heading lv =>
          simp only [step] at h
          split at h <;> rename_i heq <;> cases h
          · exact hs
          · rename_i hne
            rw [heq] at hcur
            simp only [alt_ok_state, Bool.and_eq_true]
            exact ⟨⟨hseal _ (by simpa using hcur), rfl⟩, htab⟩
          · exact hs
      case Link =>
          simp only [step] at h
          split at h <;> rename_i heq <;> cases h
          · exact hs
          · rename_i hne
            rw [heq] at hcur
            simp only [alt_ok_state, Bool.and_eq_true]
            exact ⟨⟨hseal _ (by simpa using hcur), rfl⟩, htab⟩
          · exact hs
      case Image =>
          simp only [step] at h
          split at h <;> rename_i heq <;> cases h
          · exact hs
          · rename_i hne
            rw [heq] at hcur
            simp only [alt_ok_state, Bool.and_eq_true]
            exact ⟨⟨hseal _ (by simpa using hcur), rfl⟩, htab⟩
          · exact hs
      case List =>
          simp only [step] at h
          split at h
          · split at h <;> rename_i heq <;> cases h
            · rw [heq] at hcur
              simp only [alt_ok_state, Bool.and_eq_true]
              exact ⟨⟨hseal _ (by simpa using hcur), rfl⟩, htab⟩
            · simp only [alt_ok_state, Bool.and_eq_true]
              exact ⟨⟨hel, hcur⟩, htab⟩
          · cases h
            simp only [alt_ok_state, Bool.and_eq_true]
            exact ⟨⟨hel, hcur⟩, htab⟩
      case TableHead =>
          simp only [step] at h
          cases h
          simp only [alt_ok_state, Bool.and_eq_true]
          refine ⟨⟨hel, hcur⟩, ?_⟩
          cases ht : s.table_element with
          | none => rfl
          | some p =>
              rw [ht] at htab
              simpa using htab
      case Table =>
          simp only [step] at h
          split at h <;> rename_i heq <;> cases h
          · rw [heq] at htab
            simp only [alt_ok_state, Bool.and_eq_true]
            exact ⟨⟨hseal _ (by simpa using htab), hcur⟩, rfl⟩
          · exact hs
      case Other =>
          simp only [step] at h
          cases h
          exact hs
  | Other =>
      simp only [step] at h
      cases h
      exact hs

/-- The whole event loop preserves the hyperlink-alt invariant. -/
theorem run_events_alt_ok (loader : String → Option Bytes) (events : List Event) :
    ∀ (s s' : BuilderState), run_events loader s events = .ok s' →
      alt_ok_state s = true → alt_ok_state s' = true := by
  induction events with
  | nil =>
      intro s s' h hs
      simp only [run_events] at h
      cases h
      exact hs
  | cons e es ih =>
      intro s s' h hs
      simp only [run_events] at h
      cases hstep : step loader s e with
      | ok s1 =>
          rw [hstep] at h
          exact ih s1 s' h (step_alt_ok loader s s1 e hstep hs)
      | error err => rw [hstep] at h; cases h

/-- C10: every `Hyperlink` element anywhere inside a `Document` produced by
the builder has `alt` equal to the literal string `"alt"`: the builder
creates hyperlinks with `alt = "alt"`, the text handler for an open
top-level `Hyperlink` is a self-assignment that never stores the event text,
and list-nested hyperlinks only have their `title` overwritten. -/
theorem c10_hyperlink_alt_constant (loader : String → Option Bytes)
    (events : List Event) (doc : Document)
    (h : parse_with_loader loader events = .ok doc) :
    alt_ok_elements doc.elements = true := by
  unfold parse_with_loader at h
  cases hrun : run_events loader initial_state events with
  | ok s =>
      rw [hrun] at h
      cases h
      have hinv : alt_ok_state s = true :=
        run_events_alt_ok loader events initial_state s hrun
          (by simp [alt_ok_state, initial_state, alt_ok_elements])
      simp only [alt_ok_state, Bool.and_eq_true] at hinv
      simpa [Document.new] using hinv.1.1
  | error err => rw [hrun] at h; cases h

/-- C10 witness: a document built from a link inside a paragraph satisfies
the hyperlink-alt invariant. -/
theorem c10_witness :
    alt_ok_elements (Document.new
      [Element.Paragraph [], Element.Hyperlink "t" "u" "alt" 14]).elements = true :=
  c10_hyperlink_alt_constant (fun _ => none)
    [.Start .Paragraph, .End .Paragraph,
     .Start (.Link "u" "t"), .End .Link]
    (Document.new [Element.Paragraph [], Element.Hyperlink "t" "u" "alt" 14])
    (by rfl)

end Shiva
